import Mathlib

/-!
A Lean 4 shallow embedding of the A5/1 keystream generator variant in
`A51.c` (the three shift registers R1, R2, R3, the parity feedback
function, majority-vote clock control, key setup, and the keystream
generation loop `run`), together with theorems checking the
natural-language specification against it.

Machine words (`unsigned long`) are modelled as `Nat`: the C code never
overflows 64 bits on the values it actually manipulates (all register
values are masked to at most 23 bits), so `Nat` arithmetic with explicit
masks is a faithful model.
-/

namespace A51

/-- Mask for R1: 19 bits, numbered 0..18 (`R1MASK` in the source). -/
def R1MASK : Nat := 0x07FFFF

/-- Mask for R2: 22 bits, numbered 0..21 (`R2MASK` in the source). -/
def R2MASK : Nat := 0x3FFFFF

/-- Mask for R3: 23 bits, numbered 0..22 (`R3MASK` in the source). -/
def R3MASK : Nat := 0x7FFFFF

/-- Middle (clock-control) bit of R1: bit 8 (`R1MID`). -/
def R1MID : Nat := 0x000100

/-- Middle (clock-control) bit of R2: bit 10 (`R2MID`). -/
def R2MID : Nat := 0x000400

/-- Middle (clock-control) bit of R3: bit 10 (`R3MID`). -/
def R3MID : Nat := 0x000400

/-- Feedback taps of R1: bits 18,17,16,13 (`R1TAPS`). -/
def R1TAPS : Nat := 0x072000

/-- Feedback taps of R2: bits 21,20 (`R2TAPS`). -/
def R2TAPS : Nat := 0x300000

/-- Feedback taps of R3: bits 22,21,20,7 (`R3TAPS`). -/
def R3TAPS : Nat := 0x700080

/-- Key-shift origin for R1 (`R1SHIFT`). -/
def R1SHIFT : Nat := 64

/-- Key-shift origin for R2 (`R2SHIFT`). -/
def R2SHIFT : Nat := 45

/-- Key-shift origin for R3 (`R3SHIFT`). -/
def R3SHIFT : Nat := 23

/-- Width of R1 in bits (`R1SIZE`). -/
def R1SIZE : Nat := 19

/-- Width of R2 in bits (`R2SIZE`). -/
def R2SIZE : Nat := 22

/-- Width of R3 in bits (`R3SIZE`). -/
def R3SIZE : Nat := 23

/-- The cipher state: the three global shift registers `R1`, `R2`, `R3`
of the source, made into an explicitly passed value. -/
structure A5State where
  R1 : Nat
  R2 : Nat
  R3 : Nat
deriving DecidableEq, Repr

/-- One xor-fold statement `x ^= x >> k` of the source's `parity`. -/
def xorfold (k x : Nat) : Nat := x ^^^ (x >>> k)

/-- `parity` from the source: five xor-fold statements
(`x ^= x>>16`, `x ^= x>>8`, `x ^= x>>4`, `x ^= x>>2`, `x ^= x>>1`)
followed by `x & 1`.  On 32-bit inputs this is the sum of the bits mod 2. -/
def parity (x : Nat) : Nat :=
  (xorfold 1 (xorfold 2 (xorfold 4 (xorfold 8 (xorfold 16 x))))) &&& 1

/-- `clockone` from the source: advance one register one step,
shifting left under the mask and feeding back the parity of the taps. -/
def clockone (reg mask taps : Nat) : Nat :=
  let t := reg &&& taps
  ((reg <<< 1) &&& mask) ||| parity t

/-- `majority` from the source: 1 iff at least two of the three words
are non-zero. -/
def majority (w1 w2 w3 : Nat) : Nat :=
  let sum := (if w1 ≠ 0 then 1 else 0) + (if w2 ≠ 0 then 1 else 0)
    + (if w3 ≠ 0 then 1 else 0)
  if sum ≥ 2 then 1 else 0

/-- The per-register clocking guard of `clock` in the source:
`allP || (((Ri & RiMID) != 0) == maj)`, with `mid = Ri & RiMID`. -/
def clockcond (allP : Bool) (mid maj : Nat) : Bool :=
  allP || ((if mid ≠ 0 then (1 : Nat) else 0) == maj)

/-- `clock` from the source (the A5/2-only `loaded` parameter is dead
for A5/1 and omitted): compute the majority of the three middle bits of
the pre-step state, then advance exactly the registers whose guard holds. -/
def clock (allP : Bool) (s : A5State) : A5State :=
  let maj := majority (s.R1 &&& R1MID) (s.R2 &&& R2MID) (s.R3 &&& R3MID)
  { R1 := if clockcond allP (s.R1 &&& R1MID) maj then clockone s.R1 R1MASK R1TAPS else s.R1
    R2 := if clockcond allP (s.R2 &&& R2MID) maj then clockone s.R2 R2MASK R2TAPS else s.R2
    R3 := if clockcond allP (s.R3 &&& R3MID) maj then clockone s.R3 R3MASK R3TAPS else s.R3 }

/-- `getbit` from the source: xor of the top bits of the three registers. -/
def getbit (s : A5State) : Nat :=
  ((s.R1 >>> 18) ^^^ (s.R2 >>> 21) ^^^ (s.R3 >>> 22)) &&& 0x01

/-- One key-loading loop of `keysetup`: starting from 0, shift in the
key bits at positions `shift-1`, `shift-2`, ..., `shift-size`
(`R <<= 1; R ^= bitkey`). -/
def loadreg (key shift size : Nat) : Nat :=
  (List.range size).foldl
    (fun r i => (r <<< 1) ^^^ ((key >>> (shift - i - 1)) &&& 1)) 0

/-- `keysetup` from the source: zero the registers, then run the three
loading loops.  The `frame` argument is accepted but never used. -/
def keysetup (key frame : Nat) : A5State :=
  { R1 := loadreg key R1SHIFT R1SIZE
    R2 := loadreg key R2SHIFT R2SIZE
    R3 := loadreg key R3SHIFT R3SIZE }

/-- Iterated non-forced clocking: the state after `n` calls `clock(0,0)`. -/
def clockN : Nat → A5State → A5State
  | 0, s => s
  | n + 1, s => clockN n (clock false s)

/-- `run` from the source (debug printing dropped): zero the first
`113/8 + 1 = 15` bytes of both buffers, then for `i = 0..5` OR
`getbit() << (7 - (i & 7))` into byte `i/8` of the A-to-B buffer and
clock the state once, non-forced.  Buffers are byte lists; the final
state is returned alongside them. -/
def run (AtoBkeystream BtoAkeystream : List Nat) (s : A5State) :
    List Nat × List Nat × A5State :=
  let a0 := (List.range (113 / 8 + 1)).foldl (fun b i => b.set i 0) AtoBkeystream
  let b0 := (List.range (113 / 8 + 1)).foldl (fun b i => b.set i 0) BtoAkeystream
  let p := (List.range 6).foldl
    (fun (p : List Nat × A5State) i =>
      (p.1.set (i / 8) ((p.1.getD (i / 8) 0) ||| (getbit p.2 <<< (7 - (i % 8)))),
        clock false p.2))
    (a0, s)
  (p.1, b0, p.2)

/-- Modelled from the spec: the engine operation
`generate(state, n_bits) -> (state', bitstream)` of section 4.5, which the
source's `run` loop instantiates with a hard-coded bit count; on each step
emit `output_bit` of the current state, then clock non-forced. -/
def generate (s : A5State) : Nat → List Nat × A5State
  | 0 => ([], s)
  | n + 1 =>
    let b := getbit s
    let p := generate (clock false s) n
    (b :: p.1, p.2)

/-- Bit-population count, by fuel-bounded binary recursion (the fuel
`n` always suffices since `n/2 < n` for `n > 0`). -/
def popcountFuel : Nat → Nat → Nat
  | 0, _ => 0
  | fuel + 1, n => if n = 0 then 0 else n % 2 + popcountFuel fuel (n / 2)

/-- Number of set bits of a natural number. -/
def popcount (n : Nat) : Nat := popcountFuel n n

/-- Boolean majority of three booleans: true iff at least two are true. -/
def atLeastTwo (a b c : Bool) : Bool := (a && b) || (a && c) || (b && c)

/-- States reachable by the engine: the result of `keysetup`, closed
under `clock` steps. -/
inductive Reachable : A5State → Prop
  | setup (key frame : Nat) : Reachable (keysetup key frame)
  | step (allP : Bool) (s : A5State) : Reachable s → Reachable (clock allP s)

/-- C4: the frame number is never mixed into the registers: `keysetup`
yields the same state for any two frame values. -/
theorem keysetup_frame_independent (key f1 f2 : Nat) :
    keysetup key f1 = keysetup key f2 := rfl

lemma and_one_eq_toNat_testBit (x : Nat) : x &&& 1 = (x.testBit 0).toNat := by
  rw [Nat.toNat_testBit, Nat.and_one_is_mod, Nat.pow_zero, Nat.div_one]

lemma mid_and_R1 (s : A5State) :
    s.R1 &&& R1MID = (s.R1.testBit 8).toNat * 2 ^ 8 := by
  have : R1MID = 2 ^ 8 := rfl
  rw [this, Nat.and_two_pow]

lemma mid_and_R2 (s : A5State) :
    s.R2 &&& R2MID = (s.R2.testBit 10).toNat * 2 ^ 10 := by
  have : R2MID = 2 ^ 10 := rfl
  rw [this, Nat.and_two_pow]

lemma mid_and_R3 (s : A5State) :
    s.R3 &&& R3MID = (s.R3.testBit 10).toNat * 2 ^ 10 := by
  have : R3MID = 2 ^ 10 := rfl
  rw [this, Nat.and_two_pow]

/-- C3: `getbit` returns the xor of bit 18 of R1, bit 21 of R2 and
bit 22 of R3; it reads the state and changes nothing (in this embedding
it is a plain function of the state). -/
theorem getbit_correct (s : A5State) :
    getbit s = ((s.R1.testBit 18).xor ((s.R2.testBit 21).xor (s.R3.testBit 22))).toNat := by
  rw [getbit, and_one_eq_toNat_testBit]
  congr 1
  simp only [Nat.testBit_xor, Nat.testBit_shiftRight, Nat.add_zero]
  rw [Bool.xor_assoc]

/-- C1: `clock` advances register Ri exactly when `allP` is set or Ri's
control bit (bit 8 of R1, bit 10 of R2, bit 10 of R3) equals the
majority of the three control bits of the pre-step state; an advanced
register becomes `((value <<< 1) &&& mask) ||| parity (value &&& taps)`
with the masks `0x07FFFF/0x3FFFFF/0x7FFFFF` and taps
`0x072000/0x300000/0x700080`, and a register not selected keeps its
pre-step value. -/
theorem clock_correct (allP : Bool) (s : A5State) :
    ((clock allP s).R1 =
      if allP = true ∨ s.R1.testBit 8
          = atLeastTwo (s.R1.testBit 8) (s.R2.testBit 10) (s.R3.testBit 10)
        then ((s.R1 <<< 1) &&& 0x07FFFF) ||| parity (s.R1 &&& 0x072000) else s.R1)
  ∧ ((clock allP s).R2 =
      if allP = true ∨ s.R2.testBit 10
          = atLeastTwo (s.R1.testBit 8) (s.R2.testBit 10) (s.R3.testBit 10)
        then ((s.R2 <<< 1) &&& 0x3FFFFF) ||| parity (s.R2 &&& 0x300000) else s.R2)
  ∧ ((clock allP s).R3 =
      if allP = true ∨ s.R3.testBit 10
          = atLeastTwo (s.R1.testBit 8) (s.R2.testBit 10) (s.R3.testBit 10)
        then ((s.R3 <<< 1) &&& 0x7FFFFF) ||| parity (s.R3 &&& 0x700080) else s.R3) := by
  have h1 := mid_and_R1 s
  have h2 := mid_and_R2 s
  have h3 := mid_and_R3 s
  cases hb1 : s.R1.testBit 8 <;> cases hb2 : s.R2.testBit 10 <;> cases hb3 : s.R3.testBit 10 <;>
    cases allP <;>
      simp_all [clock, clockcond, majority, clockone, atLeastTwo,
        R1MASK, R2MASK, R3MASK, R1TAPS, R2TAPS, R3TAPS]

/-- C7: on every clock step at least two of the three register guards
hold (so at least two registers advance, never zero or exactly one),
and when `allP` is set all three hold. -/
theorem majority_clocking (allP : Bool) (s : A5State) :
    2 ≤ (clockcond allP (s.R1 &&& R1MID)
          (majority (s.R1 &&& R1MID) (s.R2 &&& R2MID) (s.R3 &&& R3MID))).toNat
      + (clockcond allP (s.R2 &&& R2MID)
          (majority (s.R1 &&& R1MID) (s.R2 &&& R2MID) (s.R3 &&& R3MID))).toNat
      + (clockcond allP (s.R3 &&& R3MID)
          (majority (s.R1 &&& R1MID) (s.R2 &&& R2MID) (s.R3 &&& R3MID))).toNat
  ∧ (allP = true →
      clockcond allP (s.R1 &&& R1MID)
          (majority (s.R1 &&& R1MID) (s.R2 &&& R2MID) (s.R3 &&& R3MID)) = true
        ∧ clockcond allP (s.R2 &&& R2MID)
          (majority (s.R1 &&& R1MID) (s.R2 &&& R2MID) (s.R3 &&& R3MID)) = true
        ∧ clockcond allP (s.R3 &&& R3MID)
          (majority (s.R1 &&& R1MID) (s.R2 &&& R2MID) (s.R3 &&& R3MID)) = true) := by
  have h1 := mid_and_R1 s
  have h2 := mid_and_R2 s
  have h3 := mid_and_R3 s
  cases hb1 : s.R1.testBit 8 <;> cases hb2 : s.R2.testBit 10 <;> cases hb3 : s.R3.testBit 10 <;>
    cases allP <;>
      simp_all [clockcond, majority]

/-- Witness for `majority_clocking` at a concrete state. -/
theorem majority_clocking_witness :
    2 ≤ (clockcond false ((A5State.mk 5 7 9).R1 &&& R1MID)
          (majority ((A5State.mk 5 7 9).R1 &&& R1MID) ((A5State.mk 5 7 9).R2 &&& R2MID)
            ((A5State.mk 5 7 9).R3 &&& R3MID))).toNat
      + (clockcond false ((A5State.mk 5 7 9).R2 &&& R2MID)
          (majority ((A5State.mk 5 7 9).R1 &&& R1MID) ((A5State.mk 5 7 9).R2 &&& R2MID)
            ((A5State.mk 5 7 9).R3 &&& R3MID))).toNat
      + (clockcond false ((A5State.mk 5 7 9).R3 &&& R3MID)
          (majority ((A5State.mk 5 7 9).R1 &&& R1MID) ((A5State.mk 5 7 9).R2 &&& R2MID)
            ((A5State.mk 5 7 9).R3 &&& R3MID))).toNat :=
  (majority_clocking false (A5State.mk 5 7 9)).1

lemma two_mul_xor_bit (a b : Nat) (hb : b ≤ 1) : (2 * a) ^^^ b = 2 * a + b := by
  rcases Nat.le_one_iff_eq_zero_or_eq_one.mp hb with h | h <;> subst h
  · simp
  · apply Nat.eq_of_testBit_eq
    intro j
    cases j with
    | zero =>
      simp [Nat.testBit_xor, Nat.mul_mod_right, Nat.add_comm, Nat.add_mul_mod_self_left]
    | succ j =>
      rw [Nat.testBit_succ, Nat.testBit_succ, Nat.xor_div_two]
      have h1 : 2 * a / 2 = a := by omega
      have h2 : (2 * a + 1) / 2 = a := by omega
      simp [h1, h2]

lemma shift_in_bit (y n : Nat) :
    ((y / 2 % 2 ^ n) <<< 1) ^^^ (y &&& 1) = y % 2 ^ (n + 1) := by
  rw [Nat.shiftLeft_eq, Nat.pow_one, Nat.mul_comm _ 2, Nat.and_one_is_mod]
  rw [show (2 : Nat) ^ (n + 1) = 2 * 2 ^ n from by rw [Nat.pow_succ, Nat.mul_comm],
    Nat.mod_mul]
  have hb : y % 2 ≤ 1 := Nat.le_of_lt_succ (Nat.mod_lt _ (by omega))
  rw [two_mul_xor_bit _ _ hb]
  omega

lemma loadreg_eq (key shift size : Nat) (h : size ≤ shift) :
    loadreg key shift size = (key >>> (shift - size)) % 2 ^ size := by
  induction size with
  | zero => simp [loadreg, Nat.mod_one]
  | succ n ih =>
    have ihn := ih (Nat.le_of_succ_le h)
    rw [loadreg, List.range_succ, List.foldl_append, List.foldl_cons, List.foldl_nil]
    have e : (List.range n).foldl
        (fun r i => (r <<< 1) ^^^ ((key >>> (shift - i - 1)) &&& 1)) 0
        = loadreg key shift n := rfl
    rw [e, ihn]
    have h2 : shift - n - 1 = shift - (n + 1) := by omega
    have h1 : key >>> (shift - n) = key >>> (shift - (n + 1)) / 2 := by
      rw [show shift - n = (shift - (n + 1)) + 1 from by omega, Nat.shiftRight_succ]
    rw [h2, h1]
    exact shift_in_bit (key >>> (shift - (n + 1))) n

/-- Closed form of `keysetup`: R1 is key bits 63..45, R2 is key bits
44..23, R3 is key bits 22..0. -/
lemma keysetup_eq (key frame : Nat) :
    keysetup key frame
      = ⟨(key >>> 45) % 2 ^ 19, (key >>> 23) % 2 ^ 22, key % 2 ^ 23⟩ := by
  unfold keysetup R1SHIFT R2SHIFT R3SHIFT R1SIZE R2SIZE R3SIZE
  rw [loadreg_eq key 64 19 (by omega), loadreg_eq key 45 22 (by omega),
    loadreg_eq key 23 23 (by omega)]
  norm_num

/-- C2: `keysetup` loads R1 with key bits 63..45 (bit `45 + j` of the key
at position `j` of R1), R2 with key bits 44..23, and R3 with key bits
22..0, most-significant-bit first; the three ranges are disjoint and
cover all 64 key bits. -/
theorem keysetup_loads_key (key frame : Nat) :
    (keysetup key frame).R1 = (key >>> 45) % 2 ^ 19
  ∧ (keysetup key frame).R2 = (key >>> 23) % 2 ^ 22
  ∧ (keysetup key frame).R3 = key % 2 ^ 23
  ∧ (∀ j, j < 19 → ((keysetup key frame).R1).testBit j = key.testBit (45 + j))
  ∧ (∀ j, j < 22 → ((keysetup key frame).R2).testBit j = key.testBit (23 + j))
  ∧ (∀ j, j < 23 → ((keysetup key frame).R3).testBit j = key.testBit j) := by
  rw [keysetup_eq]
  refine ⟨rfl, rfl, rfl, ?_, ?_, ?_⟩ <;> intro j hj <;>
    · simp only [Nat.testBit_mod_two_pow, Nat.testBit_shiftRight]
      simp [hj]

/-- Witness for `keysetup_loads_key` at a concrete key and frame. -/
theorem keysetup_loads_key_witness :
    (keysetup 0x911A2B3C4D5E6F0F 0x134).R1 = (0x911A2B3C4D5E6F0F >>> 45) % 2 ^ 19
  ∧ ((keysetup 0x911A2B3C4D5E6F0F 0x134).R3).testBit 4
      = (0x911A2B3C4D5E6F0F : Nat).testBit 4 :=
  ⟨(keysetup_loads_key 0x911A2B3C4D5E6F0F 0x134).1,
    (keysetup_loads_key 0x911A2B3C4D5E6F0F 0x134).2.2.2.2.2 4 (by decide)⟩

lemma parity_le_one (x : Nat) : parity x ≤ 1 := Nat.and_le_right

lemma clockone_lt (reg mask taps w : Nat) (hm : mask < 2 ^ w) (hw : 1 < 2 ^ w) :
    clockone reg mask taps < 2 ^ w :=
  Nat.or_lt_two_pow (Nat.lt_of_le_of_lt Nat.and_le_right hm)
    (Nat.lt_of_le_of_lt (parity_le_one _) hw)

/-- C6: every reachable state (the result of `keysetup`, and anything
obtained from it by clock steps) keeps each register inside its declared
width: R1 below 2^19, R2 below 2^22, R3 below 2^23. -/
theorem width_invariant (s : A5State) (h : Reachable s) :
    s.R1 < 2 ^ 19 ∧ s.R2 < 2 ^ 22 ∧ s.R3 < 2 ^ 23 := by
  induction h with
  | setup key frame =>
    rw [keysetup_eq]
    exact ⟨Nat.mod_lt _ (by norm_num), Nat.mod_lt _ (by norm_num),
      Nat.mod_lt _ (by norm_num)⟩
  | step allP t _ ih =>
    obtain ⟨i1, i2, i3⟩ := ih
    refine ⟨?_, ?_, ?_⟩ <;> rw [clock] <;> dsimp only <;> split
    · exact clockone_lt _ _ _ _ (by norm_num [R1MASK]) (by norm_num)
    · exact i1
    · exact clockone_lt _ _ _ _ (by norm_num [R2MASK]) (by norm_num)
    · exact i2
    · exact clockone_lt _ _ _ _ (by norm_num [R3MASK]) (by norm_num)
    · exact i3

/-- Witness for `width_invariant` at a concrete reachable state. -/
theorem width_invariant_witness :
    (clock false (keysetup 0x911A2B3C4D5E6F0F 0x134)).R1 < 2 ^ 19
  ∧ (clock false (keysetup 0x911A2B3C4D5E6F0F 0x134)).R2 < 2 ^ 22
  ∧ (clock false (keysetup 0x911A2B3C4D5E6F0F 0x134)).R3 < 2 ^ 23 :=
  width_invariant _
    (Reachable.step false _ (Reachable.setup 0x911A2B3C4D5E6F0F 0x134))

lemma popcountFuel_congr (n : Nat) : ∀ f1 f2, n ≤ f1 → n ≤ f2 →
    popcountFuel f1 n = popcountFuel f2 n := by
  induction n using Nat.strong_induction_on with
  | _ n ih =>
    intro f1 f2 h1 h2
    match f1, f2 with
    | 0, 0 => rfl
    | 0, f2 + 1 =>
      have hn : n = 0 := by omega
      subst hn
      simp [popcountFuel]
    | f1 + 1, 0 =>
      have hn : n = 0 := by omega
      subst hn
      simp [popcountFuel]
    | f1 + 1, f2 + 1 =>
      by_cases hn : n = 0
      · subst hn
        simp [popcountFuel]
      · simp only [popcountFuel, hn, if_false]
        have hd : n / 2 < n := Nat.div_lt_self (Nat.pos_of_ne_zero hn) one_lt_two
        exact congrArg _ (ih (n / 2) hd f1 f2 (by omega) (by omega))

lemma popcount_eq (n : Nat) : popcount n = n % 2 + popcount (n / 2) := by
  by_cases hn : n = 0
  · subst hn
    rfl
  · obtain ⟨m, rfl⟩ : ∃ m, n = m + 1 := ⟨n - 1, by omega⟩
    show popcountFuel (m + 1) (m + 1) = (m + 1) % 2 + popcountFuel ((m + 1) / 2) ((m + 1) / 2)
    simp only [popcountFuel, hn, if_false]
    exact congrArg _ (popcountFuel_congr ((m + 1) / 2) m ((m + 1) / 2) (by omega) (by omega))

lemma popcount_xor_parity (a : Nat) : ∀ b, popcount (a ^^^ b) % 2 = (popcount a + popcount b) % 2 := by
  induction a using Nat.strong_induction_on with
  | _ a ih =>
    intro b
    by_cases ha : a = 0
    · subst ha
      simp [popcount, popcountFuel]
    · rw [popcount_eq (a ^^^ b), popcount_eq a, popcount_eq b, Nat.xor_div_two]
      have hrec := ih (a / 2) (Nat.div_lt_self (Nat.pos_of_ne_zero ha) one_lt_two) (b / 2)
      have hx : (a ^^^ b) % 2 = (a % 2 + b % 2) % 2 := by
        have h := @Nat.xor_mod_two_eq_one a b
        have hab2 := Nat.mod_two_eq_zero_or_one (a ^^^ b)
        omega
      omega

lemma popcount_split (k : Nat) : ∀ x, popcount x = popcount (x % 2 ^ k) + popcount (x / 2 ^ k) := by
  induction k with
  | zero => simp [Nat.mod_one, popcount, popcountFuel]
  | succ k ih =>
    intro x
    have e1 : x % 2 ^ (k + 1) = x % 2 + 2 * (x / 2 % 2 ^ k) := by
      rw [show (2 : Nat) ^ (k + 1) = 2 * 2 ^ k from by rw [Nat.pow_succ, Nat.mul_comm],
        Nat.mod_mul]
    have e2 : x / 2 ^ (k + 1) = x / 2 / 2 ^ k := by
      rw [show (2 : Nat) ^ (k + 1) = 2 * 2 ^ k from by rw [Nat.pow_succ, Nat.mul_comm],
        Nat.div_div_eq_div_mul]
    have e3 : (x % 2 ^ (k + 1)) % 2 = x % 2 := by
      rw [e1]
      omega
    have e4 : (x % 2 ^ (k + 1)) / 2 = x / 2 % 2 ^ k := by
      rw [e1]
      omega
    rw [popcount_eq x, popcount_eq (x % 2 ^ (k + 1)), e2, e3, e4, ih (x / 2)]
    omega

lemma xor_mod_two_pow (y z k : Nat) :
    (y ^^^ z) % 2 ^ k = (y % 2 ^ k) ^^^ (z % 2 ^ k) := by
  apply Nat.eq_of_testBit_eq
  intro i
  simp only [Nat.testBit_mod_two_pow, Nat.testBit_xor]
  cases decide (i < k) <;> simp

lemma fold_step (y k : Nat) :
    popcount ((y ^^^ (y >>> k)) % 2 ^ k) % 2 = popcount (y % 2 ^ (2 * k)) % 2 := by
  rw [xor_mod_two_pow, popcount_xor_parity]
  have e1 : y % 2 ^ (2 * k) % 2 ^ k = y % 2 ^ k := by
    apply Nat.mod_mod_of_dvd
    exact pow_dvd_pow 2 (by omega)
  have e2 : y % 2 ^ (2 * k) / 2 ^ k = y / 2 ^ k % 2 ^ k := by
    rw [show (2 : Nat) ^ (2 * k) = 2 ^ k * 2 ^ k from by rw [← pow_add]; ring_nf,
      Nat.mod_mul_right_div_self]
  have e3 : y >>> k % 2 ^ k = y / 2 ^ k % 2 ^ k := by
    rw [Nat.shiftRight_eq_div_pow]
  rw [popcount_split k (y % 2 ^ (2 * k)), e1, e2, e3]

/-- C5: on every 32-bit input, `parity` computes the number of set bits
modulo 2 (and it is a total function on `Nat` by construction). -/
theorem parity_correct (x : Nat) (h : x < 2 ^ 32) : parity x = popcount x % 2 := by
  simp only [parity, xorfold]
  rw [Nat.and_one_is_mod]
  generalize hx1 : x ^^^ (x >>> 16) = x1
  generalize hx2 : x1 ^^^ (x1 >>> 8) = x2
  generalize hx3 : x2 ^^^ (x2 >>> 4) = x3
  generalize hx4 : x3 ^^^ (x3 >>> 2) = x4
  generalize hx5 : x4 ^^^ (x4 >>> 1) = x5
  have h5 : x5 % 2 = popcount (x5 % 2 ^ 1) % 2 := by
    rcases Nat.mod_two_eq_zero_or_one x5 with h0 | h0 <;> rw [pow_one, h0] <;> rfl
  rw [h5, ← hx5, fold_step x4 1, show 2 * 1 = 2 from rfl]
  rw [← hx4, fold_step x3 2, show 2 * 2 = 4 from rfl]
  rw [← hx3, fold_step x2 4, show 2 * 4 = 8 from rfl]
  rw [← hx2, fold_step x1 8, show 2 * 8 = 16 from rfl]
  rw [← hx1, fold_step x 16, show 2 * 16 = 32 from rfl]
  rw [Nat.mod_eq_of_lt h]

/-- Witness for `parity_correct` at the all-ones 32-bit word. -/
theorem parity_correct_witness :
    (0xFFFFFFFF : Nat) < 2 ^ 32 ∧ parity 0xFFFFFFFF = popcount 0xFFFFFFFF % 2 :=
  ⟨by norm_num, parity_correct 0xFFFFFFFF (by norm_num)⟩

lemma generate_add (m : Nat) : ∀ (n : Nat) (s : A5State),
    generate s (m + n)
      = ((generate s m).1 ++ (generate (generate s m).2 n).1,
          (generate (generate s m).2 n).2) := by
  induction m with
  | zero =>
    intro n s
    simp [generate]
  | succ m ih =>
    intro n s
    rw [show m + 1 + n = (m + n) + 1 from by omega]
    simp only [generate]
    rw [ih n (clock false s)]
    simp [generate]

/-- C9: generating 228 bits equals generating 114 bits and then another
114 bits from the state the first generation leaves behind, both as a
bitstream concatenation and in the final state. -/
theorem generate_continuation (s : A5State) :
    (generate s 228).1
        = (generate s 114).1 ++ (generate (generate s 114).2 114).1
      ∧ (generate s 228).2 = (generate (generate s 114).2 114).2 := by
  have h := generate_add 114 114 s
  constructor
  · rw [show (228 : Nat) = 114 + 114 from by norm_num, h]
  · rw [show (228 : Nat) = 114 + 114 from by norm_num, h]

lemma setzero_foldl_length (buf : List Nat) (n : Nat) :
    ((List.range n).foldl (fun b i => b.set i 0) buf).length = buf.length := by
  induction n with
  | zero => rfl
  | succ n ih =>
    rw [List.range_succ, List.foldl_append, List.foldl_cons, List.foldl_nil,
      List.length_set, ih]

lemma setzero_foldl_getElem (buf : List Nat) (n j : Nat) (hj : j < n) :
    ((List.range n).foldl (fun b i => b.set i 0) buf)[j]?
      = if j < buf.length then some 0 else none := by
  induction n with
  | zero => omega
  | succ n ih =>
    rw [List.range_succ, List.foldl_append, List.foldl_cons, List.foldl_nil]
    by_cases hjn : j = n
    · subst hjn
      rw [List.getElem?_set_self']
      have hlen := setzero_foldl_length buf j
      cases hF : ((List.range j).foldl (fun b i => b.set i 0) buf)[j]? with
      | none =>
        have h1 : buf.length ≤ j := by
          have h2 := List.getElem?_eq_none_iff.mp hF
          omega
        simp [Nat.not_lt_of_le h1]
      | some v =>
        have h1 : j < buf.length := by
          rcases List.getElem?_eq_some_iff.mp hF with ⟨h2, _⟩
          omega
        simp [h1]
    · rw [List.getElem?_set_ne (fun h => hjn h.symm)]
      exact ih (by omega)

lemma setzero_eq_replicate (buf : List Nat) (h : buf.length = 15) :
    (List.range 15).foldl (fun b i => b.set i 0) buf = List.replicate 15 0 := by
  apply List.ext_getElem?
  intro j
  by_cases hj : j < 15
  · rw [setzero_foldl_getElem buf 15 j hj, List.getElem?_replicate]
    simp [h, hj]
  · have hl := setzero_foldl_length buf 15
    rw [List.getElem?_eq_none (by omega), List.getElem?_eq_none (by simp; omega)]

lemma getbit_le_one (s : A5State) : getbit s ≤ 1 := Nat.and_le_right

lemma orchain_eq (g0 g1 g2 g3 g4 g5 : Nat) (h0 : g0 ≤ 1) (h1 : g1 ≤ 1)
    (h2 : g2 ≤ 1) (h3 : g3 ≤ 1) (h4 : g4 ≤ 1) (h5 : g5 ≤ 1) :
    (((((0 ||| g0 <<< 7) ||| g1 <<< 6) ||| g2 <<< 5) ||| g3 <<< 4) ||| g4 <<< 3) ||| g5 <<< 2
      = 128 * g0 + 64 * g1 + 32 * g2 + 16 * g3 + 8 * g4 + 4 * g5 := by
  rcases Nat.le_one_iff_eq_zero_or_eq_one.mp h0 with h | h <;> subst h <;>
  rcases Nat.le_one_iff_eq_zero_or_eq_one.mp h1 with h | h <;> subst h <;>
  rcases Nat.le_one_iff_eq_zero_or_eq_one.mp h2 with h | h <;> subst h <;>
  rcases Nat.le_one_iff_eq_zero_or_eq_one.mp h3 with h | h <;> subst h <;>
  rcases Nat.le_one_iff_eq_zero_or_eq_one.mp h4 with h | h <;> subst h <;>
  rcases Nat.le_one_iff_eq_zero_or_eq_one.mp h5 with h | h <;> subst h <;>
  decide

lemma run_spec (a b : List Nat) (s : A5State) (ha : a.length = 15) (hb : b.length = 15) :
    run a b s =
      (((((((0 ||| getbit (clockN 0 s) <<< 7) ||| getbit (clockN 1 s) <<< 6)
            ||| getbit (clockN 2 s) <<< 5) ||| getbit (clockN 3 s) <<< 4)
            ||| getbit (clockN 4 s) <<< 3) ||| getbit (clockN 5 s) <<< 2)
          :: List.replicate 14 0,
        List.replicate 15 0, clockN 6 s) := by
  unfold run
  rw [show (113 / 8 + 1) = 15 from rfl]
  rw [setzero_eq_replicate a ha, setzero_eq_replicate b hb]
  rfl

/-- C8: in the generation loop a bit is emitted before the clock step
that follows it: for `i < 6`, the bit stored at byte `i/8`, position
`7 - (i % 8)` of the A-to-B buffer is `getbit` of the state reached by
exactly `i` non-forced clock steps (the pre-clock state of iteration
`i`), the buffer having been zero-initialized first. -/
theorem run_emission_order (a b : List Nat) (s : A5State)
    (ha : a.length = 15) (hb : b.length = 15) (i : Nat) (hi : i < 6) :
    ((run a b s).1.getD (i / 8) 0) / 2 ^ (7 - i % 8) % 2 = getbit (clockN i s) := by
  rw [run_spec a b s ha hb]
  have h8 : i / 8 = 0 := by omega
  have h7 : i % 8 = i := by omega
  rw [h8, h7]
  simp only [List.getD_cons_zero]
  rw [orchain_eq _ _ _ _ _ _ (getbit_le_one _) (getbit_le_one _) (getbit_le_one _)
    (getbit_le_one _) (getbit_le_one _) (getbit_le_one _)]
  have b0 := getbit_le_one (clockN 0 s)
  have b1 := getbit_le_one (clockN 1 s)
  have b2 := getbit_le_one (clockN 2 s)
  have b3 := getbit_le_one (clockN 3 s)
  have b4 := getbit_le_one (clockN 4 s)
  have b5 := getbit_le_one (clockN 5 s)
  interval_cases i <;> · norm_num; omega

/-- Witness for `run_emission_order` at a concrete state and index. -/
theorem run_emission_order_witness :
    ((run (List.replicate 15 0) (List.replicate 15 0) (A5State.mk 1 2 3)).1.getD (2 / 8) 0)
        / 2 ^ (7 - 2 % 8) % 2
      = getbit (clockN 2 (A5State.mk 1 2 3)) :=
  run_emission_order _ _ _ (List.length_replicate 15 0) (List.length_replicate 15 0)
    2 (by decide)

/-- C10: `run` writes exactly six keystream bits, all into the top six
bit positions of byte 0 of the A-to-B buffer; bytes 1..14 of the A-to-B
buffer and all 15 bytes of the B-to-A buffer are zero. -/
theorem run_frame_effect (a b : List Nat) (s : A5State)
    (ha : a.length = 15) (hb : b.length = 15) :
    (run a b s).1
        = (128 * getbit (clockN 0 s) + 64 * getbit (clockN 1 s) + 32 * getbit (clockN 2 s)
            + 16 * getbit (clockN 3 s) + 8 * getbit (clockN 4 s) + 4 * getbit (clockN 5 s))
          :: List.replicate 14 0
  ∧ (run a b s).2.1 = List.replicate 15 0
  ∧ (run a b s).1.getD 0 0 % 4 = 0
  ∧ (run a b s).1.getD 0 0 < 256 := by
  have hsum : (((((0 ||| getbit (clockN 0 s) <<< 7) ||| getbit (clockN 1 s) <<< 6)
        ||| getbit (clockN 2 s) <<< 5) ||| getbit (clockN 3 s) <<< 4)
        ||| getbit (clockN 4 s) <<< 3) ||| getbit (clockN 5 s) <<< 2
      = 128 * getbit (clockN 0 s) + 64 * getbit (clockN 1 s) + 32 * getbit (clockN 2 s)
        + 16 * getbit (clockN 3 s) + 8 * getbit (clockN 4 s) + 4 * getbit (clockN 5 s) :=
    orchain_eq _ _ _ _ _ _ (getbit_le_one _) (getbit_le_one _) (getbit_le_one _)
      (getbit_le_one _) (getbit_le_one _) (getbit_le_one _)
  have b0 := getbit_le_one (clockN 0 s)
  have b1 := getbit_le_one (clockN 1 s)
  have b2 := getbit_le_one (clockN 2 s)
  have b3 := getbit_le_one (clockN 3 s)
  have b4 := getbit_le_one (clockN 4 s)
  have b5 := getbit_le_one (clockN 5 s)
  rw [run_spec a b s ha hb]
  refine ⟨by rw [hsum], rfl, ?_, ?_⟩ <;>
    · simp only [List.getD_cons_zero]
      rw [hsum]
      omega

/-- Witness for `run_frame_effect` at concrete buffers and state. -/
theorem run_frame_effect_witness :
    (run (List.replicate 15 0) (List.replicate 15 0) (A5State.mk 1 2 3)).2.1
      = List.replicate 15 0 :=
  (run_frame_effect (List.replicate 15 0) (List.replicate 15 0) (A5State.mk 1 2 3)
    (List.length_replicate 15 0) (List.length_replicate 15 0)).2.1

end A51
